import Mathlib

/-!
Verification of the isomagic voxel renderer (src/main.rs, src/enums.rs)
against its natural-language specification.

The Rust program is shallowly embedded: machine integers (`u8`, `u32`,
`usize`) become `Nat` (the program only adds, subtracts and multiplies
small quantities, far from any overflow; `u8::saturating_sub` and the
in-range `u32` subtractions of the `invert_*` helpers coincide with
truncated `Nat` subtraction on the inputs considered), fallible
operations return `Option`, and the in-place `sort_unstable_by_key`
becomes a pure ascending sort over a copy of the voxel list.
-/

namespace Isomagic

/-- One RGBA pixel, each channel a byte value (image::Rgba<u8>). -/
structure Rgba where
  r : Nat
  g : Nat
  b : Nat
  a : Nat
deriving DecidableEq, Repr

/-- The fully transparent pixel that image::ImageBuffer::new fills the canvas with. -/
def transparent : Rgba := ⟨0, 0, 0, 0⟩

/-- A 2-D RGBA raster (image::RgbaImage), row-major, origin top-left. -/
structure Canvas where
  width : Nat
  height : Nat
  data : List Rgba
deriving DecidableEq, Repr

/-- ImageBuffer::new: a width × height canvas of transparent pixels. -/
def Canvas.new (width height : Nat) : Canvas :=
  ⟨width, height, List.replicate (width * height) transparent⟩

/-- ImageBuffer::put_pixel. Out-of-bounds writes panic in the source; they are
modelled as no-ops here, and the canvas-sizing theorems show every write the
renderer performs is in bounds, so the two semantics agree on this program. -/
def Canvas.putPixel (c : Canvas) (x y : Nat) (p : Rgba) : Canvas :=
  if x < c.width ∧ y < c.height then
    ⟨c.width, c.height, c.data.set (x + y * c.width) p⟩
  else c

/-- Read a pixel back (transparent when out of range). -/
def Canvas.get (c : Canvas) (x y : Nat) : Rgba :=
  (c.data[x + y * c.width]?).getD transparent

/-- The canvas holds exactly width * height pixels (maintained by new/putPixel). -/
def Canvas.Wf (c : Canvas) : Prop := c.data.length = c.width * c.height

instance (c : Canvas) : Decidable c.Wf := by unfold Canvas.Wf; infer_instance

/-- One voxel of the model (dot_vox::Voxel): grid coordinates and a palette index,
all `u8` in the source. -/
structure Voxel where
  x : Nat
  y : Nat
  z : Nat
  i : Nat
deriving DecidableEq, Repr

/-- The model's bounding dimensions (struct Size in main.rs). -/
structure Size where
  x : Nat
  y : Nat
  z : Nat
deriving DecidableEq, Repr

/-- Size::invert_x: self.x - voxel.x (u32 arithmetic; in range for voxels inside the model). -/
def Size.invert_x (s : Size) (v : Voxel) : Nat := s.x - v.x

/-- Size::invert_y: self.y - voxel.y. -/
def Size.invert_y (s : Size) (v : Voxel) : Nat := s.y - v.y

/-- Size::invert_z: self.z - voxel.z. -/
def Size.invert_z (s : Size) (v : Voxel) : Nat := s.z - v.z

/-- One model of the .vox file: bounding size plus the ordered voxel list. -/
structure Model where
  size : Size
  voxels : List Voxel
deriving DecidableEq, Repr

/-- ModelRenderer::colour. The source computes palette[index as usize - 1];
for index = 0 the usize subtraction underflows and the access panics, and for
index - 1 out of range the slice access panics: both are modelled as `none`.
The channels are extracted little-endian (r = low byte) and `Nat` subtraction
is exactly `u8::saturating_sub` on byte values. -/
def colour (palette : List Nat) (index subtract : Nat) : Option Rgba :=
  if index = 0 then none
  else
    match palette[index - 1]? with
    | none => none
    | some c =>
      let r := c % 256
      let g := (c >>> 8) % 256
      let b := (c >>> 16) % 256
      let a := (c >>> 24) % 256
      some ⟨r - subtract, g - subtract, b - subtract, a⟩

/-- Total wrapper for colour used inside the paint loops (the loops only run on
voxels whose palette indices are valid; colour_isSome_iff characterises when the
`Option` is `some`). -/
def colourT (palette : List Nat) (index subtract : Nat) : Rgba :=
  (colour palette index subtract).getD transparent

/-- enums.rs: the six sides. -/
inductive Side where
  | Top
  | Front
  | Left
  | Right
  | Back
  | Bottom
deriving DecidableEq, Repr

/-- enums.rs: the five views. -/
inductive View where
  | Face
  | FourtyFive
  | FourtyFiveIso
  | TwentyTwoPointFive
  | TwentyTwoPointFiveIso
deriving DecidableEq, Repr

/-- Side::to_str. -/
def Side.to_str : Side → String
  | .Top => "top"
  | .Front => "front"
  | .Left => "left"
  | .Right => "right"
  | .Back => "back"
  | .Bottom => "bottom"

/-- FromStr for Side. -/
def Side.from_str (string : String) : Except String Side :=
  match string with
  | "top" => .ok .Top
  | "front" => .ok .Front
  | "left" => .ok .Left
  | "right" => .ok .Right
  | "back" => .ok .Back
  | "bottom" => .ok .Bottom
  | _ => .error ("No corresponding side for '" ++ string ++ "'")

/-- Side::all. -/
def Side.all : List Side := [.Top, .Front, .Left, .Right, .Back, .Bottom]

/-- View::to_str (note the underscore forms for the iso views). -/
def View.to_str : View → String
  | .Face => "face"
  | .FourtyFive => "45"
  | .FourtyFiveIso => "45_iso"
  | .TwentyTwoPointFive => "22.5"
  | .TwentyTwoPointFiveIso => "22.5_iso"

/-- FromStr for View (note the space forms for the iso views, and the source's
format string "No corresponding view for '{}" lacking the closing quote). -/
def View.from_str (string : String) : Except String View :=
  match string with
  | "face" => .ok .Face
  | "45" => .ok .FourtyFive
  | "45 iso" => .ok .FourtyFiveIso
  | "22.5" => .ok .TwentyTwoPointFive
  | "22.5 iso" => .ok .TwentyTwoPointFiveIso
  | _ => .error ("No corresponding view for '" ++ string)

/-- View::all. -/
def View.all : List View :=
  [.Face, .FourtyFive, .FourtyFiveIso, .TwentyTwoPointFive, .TwentyTwoPointFiveIso]

/-- Vec::sort_unstable_by_key(sort): ascending by key. The embedding is pure,
returning the sorted copy that the subsequent paint loop traverses. The source's
unstable sort leaves the relative order of equal keys unspecified; any ascending
sort models it, and insertion sort keeps the definition kernel-computable. -/
def sortByKey (key : Voxel → Nat) (l : List Voxel) : List Voxel :=
  l.insertionSort (fun a b => key a ≤ key b)

/-- Execute a sequence of put_pixel calls, in order. -/
def paintStamp (puts : List (Nat × Nat × Rgba)) (img : Canvas) : Canvas :=
  puts.foldl (fun img t => img.putPixel t.1 t.2.1 t.2.2) img

/-- render_face_closure's put sequence for one voxel: a single pixel. -/
def puts_face (pal : List Nat) (x y i : Nat) : List (Nat × Nat × Rgba) :=
  [(x, y, colourT pal i 0)]

/-- render_45_closure's put sequence for one voxel (source order). -/
def puts_45 (pal : List Nat) (x y i : Nat) : List (Nat × Nat × Rgba) :=
  let colour := colourT pal i 30
  let colour_lighter := colourT pal i 0
  [(x, y + 1, colour), (x, y, colour_lighter)]

/-- render_22_5_closure's put sequence for one voxel (source order). -/
def puts_22_5 (pal : List Nat) (x y i : Nat) : List (Nat × Nat × Rgba) :=
  let colour := colourT pal i 30
  let colour_lighter := colourT pal i 0
  [(x, y, colour_lighter), (x + 1, y, colour_lighter),
   (x, y + 1, colour), (x + 1, y + 1, colour),
   (x, y + 2, colour), (x + 1, y + 2, colour)]

/-- render_45_iso_closure's put sequence for one voxel (source order). -/
def puts_45_iso (pal : List Nat) (x y i : Nat) : List (Nat × Nat × Rgba) :=
  let colour := colourT pal i 30
  let colour_lighter := colourT pal i 15
  let colour_lightest := colourT pal i 0
  [(x, y, colour_lightest), (x + 1, y, colour_lightest),
   (x, y + 1, colour), (x + 1, y + 1, colour_lighter)]

/-- render_22_5_iso_closure's put sequence for one voxel: the top row, then the
source's `for y in y + 1 .. y + 4` loop over three further rows. -/
def puts_22_5_iso (pal : List Nat) (x y i : Nat) : List (Nat × Nat × Rgba) :=
  let colour := colourT pal i 30
  let colour_lighter := colourT pal i 15
  let colour_lightest := colourT pal i 0
  [(x, y, colour_lightest), (x + 1, y, colour_lightest),
   (x + 2, y, colour_lightest), (x + 3, y, colour_lightest)] ++
  (List.range' (y + 1) 3).flatMap (fun yy =>
    [(x, yy, colour), (x + 1, yy, colour),
     (x + 2, yy, colour_lighter), (x + 3, yy, colour_lighter)])

/-- The shared shape of the four render_*_closure functions: create_image
(sort the voxels, size the canvas from the sorted list's screen extents plus
padding) and then paint each voxel's stamp in sorted order. -/
def render_closure (m : Model) (pal : List Nat) (xPad yPad : Nat)
    (putsFn : List Nat → Nat → Nat → Nat → List (Nat × Nat × Rgba))
    (sortf mapX mapY : Voxel → Nat) : Canvas :=
  let sorted := sortByKey sortf m.voxels
  let width := ((sorted.map mapX).max?).getD 0 + xPad + 1
  let height := ((sorted.map mapY).max?).getD 0 + yPad + 1
  sorted.foldl (fun img v => paintStamp (putsFn pal (mapX v) (mapY v) v.i) img)
    (Canvas.new width height)

/-- render_face's per-side (sort key, screen x, screen y) closures. -/
def proj_face (size : Size) : Side → (Voxel → Nat) × (Voxel → Nat) × (Voxel → Nat)
  | .Top =>
    (fun v => v.z, fun v => v.x, fun v => size.invert_y v)
  | .Front =>
    (fun v => size.invert_y v, fun v => v.x, fun v => size.invert_z v)
  | .Left =>
    (fun v => size.invert_x v, fun v => size.invert_y v, fun v => size.invert_z v)
  | .Right =>
    (fun v => v.x, fun v => v.y, fun v => size.invert_z v)
  | .Back =>
    (fun v => v.y, fun v => size.invert_x v, fun v => size.invert_z v)
  | .Bottom =>
    (fun v => size.invert_z v, fun v => v.x, fun v => v.y)

/-- render_45's per-side closures; Top and Bottom hit unreachable!() (none). -/
def proj_45 (size : Size) : Side → Option ((Voxel → Nat) × (Voxel → Nat) × (Voxel → Nat))
  | .Front => some
    (fun v => v.z + size.invert_y v,
     fun v => v.x,
     fun v => size.invert_z v + size.invert_y v)
  | .Left => some
    (fun v => v.z + size.invert_x v,
     fun v => size.invert_y v,
     fun v => size.invert_z v + size.invert_x v)
  | .Right => some
    (fun v => v.z + v.x,
     fun v => v.y,
     fun v => size.invert_z v + v.x)
  | .Back => some
    (fun v => v.z + v.y,
     fun v => size.invert_x v,
     fun v => size.invert_z v + v.y)
  | _ => none

/-- render_22_5's per-side closures; Top and Bottom hit unreachable!() (none). -/
def proj_22_5 (size : Size) : Side → Option ((Voxel → Nat) × (Voxel → Nat) × (Voxel → Nat))
  | .Front => some
    (fun v => v.z + size.invert_y v,
     fun v => v.x * 2,
     fun v => size.invert_z v * 2 + size.invert_y v)
  | .Left => some
    (fun v => v.z + size.invert_x v,
     fun v => size.invert_y v * 2,
     fun v => size.invert_z v * 2 + size.invert_x v)
  | .Right => some
    (fun v => v.z + v.x,
     fun v => v.y * 2,
     fun v => size.invert_z v * 2 + v.x)
  | .Back => some
    (fun v => v.z + v.y,
     fun v => size.invert_x v * 2,
     fun v => size.invert_z v * 2 + v.y)
  | _ => none

/-- render_45_iso's per-side closures; Top and Bottom hit unreachable!() (none). -/
def proj_45_iso (size : Size) : Side → Option ((Voxel → Nat) × (Voxel → Nat) × (Voxel → Nat))
  | .Front => some
    (fun v => v.z + size.invert_x v + size.invert_y v,
     fun v => v.x + size.invert_y v,
     fun v => size.invert_z v + size.invert_x v + size.invert_y v)
  | .Left => some
    (fun v => v.z + size.invert_x v + v.y,
     fun v => size.invert_x v + size.invert_y v,
     fun v => size.invert_z v + size.invert_x v + v.y)
  | .Right => some
    (fun v => v.z + v.x + size.invert_y v,
     fun v => v.x + v.y,
     fun v => size.invert_z v + v.x + size.invert_y v)
  | .Back => some
    (fun v => v.z + v.x + v.y,
     fun v => size.invert_x v + v.y,
     fun v => size.invert_z v + v.x + v.y)
  | _ => none

/-- render_22_5_iso's per-side closures; Top and Bottom hit unreachable!() (none). -/
def proj_22_5_iso (size : Size) : Side → Option ((Voxel → Nat) × (Voxel → Nat) × (Voxel → Nat))
  | .Front => some
    (fun v => v.z + size.invert_x v + size.invert_y v,
     fun v => v.x * 2 + size.invert_y v * 2,
     fun v => size.invert_z v * 3 + size.invert_x v + size.invert_y v)
  | .Left => some
    (fun v => v.z + size.invert_x v + v.y,
     fun v => size.invert_x v * 2 + size.invert_y v * 2,
     fun v => size.invert_z v * 3 + size.invert_x v + v.y)
  | .Right => some
    (fun v => v.z + v.x + size.invert_y v,
     fun v => v.x * 2 + v.y * 2,
     fun v => size.invert_z v * 3 + v.x + size.invert_y v)
  | .Back => some
    (fun v => v.z + v.x + v.y,
     fun v => size.invert_x v * 2 + v.y * 2,
     fun v => size.invert_z v * 3 + v.x + v.y)
  | _ => none

/-- render_face: always defined, for all six sides. -/
def render_face (m : Model) (pal : List Nat) (xPad yPad : Nat) (side : Side) : Canvas :=
  let t := proj_face m.size side
  render_closure m pal xPad yPad puts_face t.1 t.2.1 t.2.2

/-- render_45 (none models the unreachable!() panic on Top/Bottom). -/
def render_45 (m : Model) (pal : List Nat) (xPad yPad : Nat) (side : Side) : Option Canvas :=
  (proj_45 m.size side).map fun t => render_closure m pal xPad yPad puts_45 t.1 t.2.1 t.2.2

/-- render_22_5. -/
def render_22_5 (m : Model) (pal : List Nat) (xPad yPad : Nat) (side : Side) : Option Canvas :=
  (proj_22_5 m.size side).map fun t => render_closure m pal xPad yPad puts_22_5 t.1 t.2.1 t.2.2

/-- render_45_iso. -/
def render_45_iso (m : Model) (pal : List Nat) (xPad yPad : Nat) (side : Side) : Option Canvas :=
  (proj_45_iso m.size side).map fun t => render_closure m pal xPad yPad puts_45_iso t.1 t.2.1 t.2.2

/-- render_22_5_iso. -/
def render_22_5_iso (m : Model) (pal : List Nat) (xPad yPad : Nat) (side : Side) : Option Canvas :=
  (proj_22_5_iso m.size side).map fun t => render_closure m pal xPad yPad puts_22_5_iso t.1 t.2.1 t.2.2

/-- Renderer::render: dispatch on the view with the per-view paddings of the
ModelRenderer::new call sites ((0,0) Face, (0,1) 45, (1,1) 45 iso, (1,2) 22.5,
(3,3) 22.5 iso). -/
def render (m : Model) (pal : List Nat) (side : Side) (view : View) : Option Canvas :=
  match view with
  | .Face => some (render_face m pal 0 0 side)
  | .FourtyFive => render_45 m pal 0 1 side
  | .FourtyFiveIso => render_45_iso m pal 1 1 side
  | .TwentyTwoPointFive => render_22_5 m pal 1 2 side
  | .TwentyTwoPointFiveIso => render_22_5_iso m pal 3 3 side

/-- Renderer::render_all restricted to one model: iterate the requested sides
and views, rendering only when view == Face || (side != Top && side != Bottom),
and silently skipping the other combinations. -/
def render_all (m : Model) (pal : List Nat) (sides : List Side) (views : List View) :
    List ((Side × View) × Canvas) :=
  sides.flatMap fun side => views.filterMap fun view =>
    if view = View.Face ∨ (side ≠ Side.Top ∧ side ≠ Side.Bottom) then
      (render m pal side view).map fun c => ((side, view), c)
    else none

/-- The (sort key, screen x, screen y) triple the dispatched render uses. -/
def projOf (size : Size) : View → Side → Option ((Voxel → Nat) × (Voxel → Nat) × (Voxel → Nat))
  | .Face => fun side => some (proj_face size side)
  | .FourtyFive => fun side => proj_45 size side
  | .FourtyFiveIso => fun side => proj_45_iso size side
  | .TwentyTwoPointFive => fun side => proj_22_5 size side
  | .TwentyTwoPointFiveIso => fun side => proj_22_5_iso size side

/-- The horizontal padding each view is dispatched with. -/
def xPadOf : View → Nat
  | .Face => 0
  | .FourtyFive => 0
  | .FourtyFiveIso => 1
  | .TwentyTwoPointFive => 1
  | .TwentyTwoPointFiveIso => 3

/-- The vertical padding each view is dispatched with. -/
def yPadOf : View → Nat
  | .Face => 0
  | .FourtyFive => 1
  | .FourtyFiveIso => 1
  | .TwentyTwoPointFive => 2
  | .TwentyTwoPointFiveIso => 3

/-- The per-voxel put sequence each view's closure paints. -/
def putsFnOf : View → List Nat → Nat → Nat → Nat → List (Nat × Nat × Rgba)
  | .Face => puts_face
  | .FourtyFive => puts_45
  | .FourtyFiveIso => puts_45_iso
  | .TwentyTwoPointFive => puts_22_5
  | .TwentyTwoPointFiveIso => puts_22_5_iso

/-- The screen positions a voxel's stamp covers, for a stamp anchored at (x, y). -/
def stampPositions : View → Nat → Nat → List (Nat × Nat)
  | .Face, x, y => [(x, y)]
  | .FourtyFive, x, y => [(x, y + 1), (x, y)]
  | .TwentyTwoPointFive, x, y =>
    [(x, y), (x + 1, y), (x, y + 1), (x + 1, y + 1), (x, y + 2), (x + 1, y + 2)]
  | .FourtyFiveIso, x, y =>
    [(x, y), (x + 1, y), (x, y + 1), (x + 1, y + 1)]
  | .TwentyTwoPointFiveIso, x, y =>
    [(x, y), (x + 1, y), (x + 2, y), (x + 3, y)] ++
    (List.range' (y + 1) 3).flatMap (fun yy =>
      [(x, yy), (x + 1, yy), (x + 2, yy), (x + 3, yy)])

/-- The dispatched render in uniform form. -/
theorem render_eq (m : Model) (pal : List Nat) (side : Side) (view : View) :
    render m pal side view =
      (projOf m.size view side).map fun t =>
        render_closure m pal (xPadOf view) (yPadOf view) (putsFnOf view) t.1 t.2.1 t.2.2 := by
  cases view <;> rfl

/-- The positions of a stamp's puts are stampPositions, whatever the palette and index. -/
theorem putsFnOf_positions (view : View) (pal : List Nat) (x y i : Nat) :
    (putsFnOf view pal x y i).map (fun t => (t.1, t.2.1)) = stampPositions view x y := by
  cases view <;> rfl

/-- C7: for 1 ≤ index ≤ palette length, colour unpacks palette[index-1] in
little-endian byte order ((r,g,b,a) = (byte0,byte1,byte2,byte3)), subtracts the
darken amount from r, g, b with saturation at 0 (truncated Nat subtraction is
exactly u8::saturating_sub on byte values) and leaves a unchanged; with darken 0
the entry is returned unmodified. -/
theorem colour_unpacks_littleEndian (pal : List Nat) (index subtract : Nat)
    (h1 : 1 ≤ index) (h2 : index ≤ pal.length) :
    colour pal index subtract =
      some ⟨pal.getD (index - 1) 0 % 256 - subtract,
            (pal.getD (index - 1) 0 >>> 8) % 256 - subtract,
            (pal.getD (index - 1) 0 >>> 16) % 256 - subtract,
            (pal.getD (index - 1) 0 >>> 24) % 256⟩ ∧
    colour pal index 0 =
      some ⟨pal.getD (index - 1) 0 % 256,
            (pal.getD (index - 1) 0 >>> 8) % 256,
            (pal.getD (index - 1) 0 >>> 16) % 256,
            (pal.getD (index - 1) 0 >>> 24) % 256⟩ := by
  have h0 : index ≠ 0 := by omega
  have hlt : index - 1 < pal.length := by omega
  have hsome : pal[index - 1]? = some (pal.getD (index - 1) 0) := by
    rw [List.getElem?_eq_getElem hlt, List.getD_eq_getElem?_getD,
      List.getElem?_eq_getElem hlt]
    rfl
  refine ⟨?_, ?_⟩
  · unfold colour
    rw [if_neg h0, hsome]
  · unfold colour
    rw [if_neg h0, hsome]
    rfl

/-- C7 witness: the single-entry palette [0xFF0000FF] at index 1, darken 30. -/
theorem colour_unpacks_littleEndian_witness :
    1 ≤ 1 ∧ 1 ≤ [(0xFF0000FF : Nat)].length ∧
    (colour [(0xFF0000FF : Nat)] 1 30 =
      some ⟨[(0xFF0000FF : Nat)].getD (1 - 1) 0 % 256 - 30,
            ([(0xFF0000FF : Nat)].getD (1 - 1) 0 >>> 8) % 256 - 30,
            ([(0xFF0000FF : Nat)].getD (1 - 1) 0 >>> 16) % 256 - 30,
            ([(0xFF0000FF : Nat)].getD (1 - 1) 0 >>> 24) % 256⟩ ∧
     colour [(0xFF0000FF : Nat)] 1 0 =
      some ⟨[(0xFF0000FF : Nat)].getD (1 - 1) 0 % 256,
            ([(0xFF0000FF : Nat)].getD (1 - 1) 0 >>> 8) % 256,
            ([(0xFF0000FF : Nat)].getD (1 - 1) 0 >>> 16) % 256,
            ([(0xFF0000FF : Nat)].getD (1 - 1) 0 >>> 24) % 256⟩) :=
  ⟨by decide, by decide,
   colour_unpacks_littleEndian [(0xFF0000FF : Nat)] 1 30 (by decide) (by decide)⟩

/-- C8: colour succeeds exactly when 1 ≤ index ≤ palette length; index 0 (usize
underflow) and index beyond the palette (slice overrun) fail fatally (none),
never returning a clamped or default colour. -/
theorem colour_isSome_iff (pal : List Nat) (index subtract : Nat) :
    (colour pal index subtract).isSome = true ↔ (1 ≤ index ∧ index ≤ pal.length) := by
  by_cases h0 : index = 0
  · subst h0; simp [colour]
  · by_cases hlt : index - 1 < pal.length
    · have hsome : pal[index - 1]? = some pal[index - 1] := List.getElem?_eq_getElem hlt
      simp only [colour, if_neg h0, hsome]
      simp only [Option.isSome_some, true_iff]
      omega
    · have hnone : pal[index - 1]? = none := by
        rw [List.getElem?_eq_none_iff]
        omega
      simp only [colour, if_neg h0, hnone]
      simp only [Option.isSome_none, Bool.false_eq_true, false_iff]
      omega

/-- C10: Side round-trips through its string form for all six sides; for View,
face, 45 and 22.5 round-trip, but the iso views do not: to_str yields the
file-name forms 45_iso and 22.5_iso while from_str accepts only 45 iso and
22.5 iso, so parsing the printed form fails. -/
theorem side_view_string_roundtrip :
    Side.from_str (Side.to_str .Top) = .ok .Top ∧
    Side.from_str (Side.to_str .Front) = .ok .Front ∧
    Side.from_str (Side.to_str .Left) = .ok .Left ∧
    Side.from_str (Side.to_str .Right) = .ok .Right ∧
    Side.from_str (Side.to_str .Back) = .ok .Back ∧
    Side.from_str (Side.to_str .Bottom) = .ok .Bottom ∧
    View.from_str (View.to_str .Face) = .ok .Face ∧
    View.from_str (View.to_str .FourtyFive) = .ok .FourtyFive ∧
    View.from_str (View.to_str .TwentyTwoPointFive) = .ok .TwentyTwoPointFive ∧
    View.to_str .FourtyFiveIso = "45_iso" ∧
    View.to_str .TwentyTwoPointFiveIso = "22.5_iso" ∧
    View.from_str (View.to_str .FourtyFiveIso) =
      .error "No corresponding view for '45_iso" ∧
    View.from_str (View.to_str .TwentyTwoPointFiveIso) =
      .error "No corresponding view for '22.5_iso" ∧
    View.from_str "45 iso" = .ok .FourtyFiveIso ∧
    View.from_str "22.5 iso" = .ok .TwentyTwoPointFiveIso :=
  ⟨rfl, rfl, rfl, rfl, rfl, rfl, rfl, rfl, rfl, rfl, rfl, rfl, rfl, rfl, rfl⟩

/-- C3 counterexample: the Face/Front render of the 1×1×1 single-voxel model
(palette entry 1 = 0xFF0000FF) is 1 pixel wide, not the claimed 2. -/
theorem singleVoxel_faceFront_not_two_wide :
    (render ⟨⟨1, 1, 1⟩, [⟨0, 0, 0, 1⟩]⟩ [(0xFF0000FF : Nat)] .Front .Face).map
      Canvas.width = some 1 ∧ (1 : Nat) ≠ 2 := by
  decide

/-- C3 (amended): that render is a 1×2 canvas whose single opaque red pixel sits
at (voxel.x, size.z - voxel.z) = (0, 1), the other pixel fully transparent. -/
theorem singleVoxel_faceFront_render :
    render ⟨⟨1, 1, 1⟩, [⟨0, 0, 0, 1⟩]⟩ [(0xFF0000FF : Nat)] .Front .Face =
      some ⟨1, 2, [transparent, ⟨255, 0, 0, 255⟩]⟩ ∧
    Size.invert_z ⟨1, 1, 1⟩ ⟨0, 0, 0, 1⟩ = 1 ∧
    Canvas.get ⟨1, 2, [transparent, ⟨255, 0, 0, 255⟩]⟩ 0 1 = ⟨255, 0, 0, 255⟩ ∧
    Canvas.get ⟨1, 2, [transparent, ⟨255, 0, 0, 255⟩]⟩ 0 0 = transparent := by
  decide

/-- C4 counterexample: at size (2,2,2), side Front, voxel (0,0,1), the 22.5-iso
sort key is 5, identical to the 45-iso key and not the claimed key with the
depth-axis (invert-y) term tripled, which is 9; and the 22.5-iso vertical screen
coordinate is 7, not the 45-iso value 5 the claim's screen-function clause
requires. -/
theorem tw25iso_claim_counterexample :
    (proj_45_iso ⟨2, 2, 2⟩ .Front).map (fun t => t.1 ⟨0, 0, 1, 1⟩) = some 5 ∧
    (proj_22_5_iso ⟨2, 2, 2⟩ .Front).map (fun t => t.1 ⟨0, 0, 1, 1⟩) = some 5 ∧
    (⟨0, 0, 1, 1⟩ : Voxel).z + Size.invert_x ⟨2, 2, 2⟩ ⟨0, 0, 1, 1⟩ +
      3 * Size.invert_y ⟨2, 2, 2⟩ ⟨0, 0, 1, 1⟩ = 9 ∧
    (5 : Nat) ≠ 9 ∧
    (proj_22_5_iso ⟨2, 2, 2⟩ .Front).map (fun t => t.2.2 ⟨0, 0, 1, 1⟩) = some 7 ∧
    (proj_45_iso ⟨2, 2, 2⟩ .Front).map (fun t => t.2.2 ⟨0, 0, 1, 1⟩) = some 5 ∧
    (7 : Nat) ≠ 5 := by
  decide

/-- C4 (amended): for each lateral side, the 22.5-iso projection has the same
depth sort key as the 45-iso one (no tripling anywhere in the key), its
horizontal screen coordinate doubled, and its vertical screen coordinate equal
to the 45-iso one plus two extra invert-z terms (the vertical-axis contribution
tripled, the depth-axis contribution unchanged). -/
theorem tw25iso_eq_45iso_amended (size : Size) (side : Side) (v : Voxel)
    (h : side ≠ Side.Top ∧ side ≠ Side.Bottom) :
    (proj_22_5_iso size side).map (fun t => t.1 v) =
      (proj_45_iso size side).map (fun t => t.1 v) ∧
    (proj_22_5_iso size side).map (fun t => t.2.1 v) =
      (proj_45_iso size side).map (fun t => 2 * t.2.1 v) ∧
    (proj_22_5_iso size side).map (fun t => t.2.2 v) =
      (proj_45_iso size side).map (fun t => t.2.2 v + 2 * size.invert_z v) := by
  obtain ⟨hT, hB⟩ := h
  cases side
  · exact absurd rfl hT
  all_goals first
    | exact absurd rfl hB
    | refine ⟨?_, ?_, ?_⟩ <;>
        simp only [proj_22_5_iso, proj_45_iso, Option.map_some', Option.some.injEq] <;>
        omega

/-- C4 witness at size (2,2,2), side Front, voxel (0,0,1). -/
theorem tw25iso_eq_45iso_amended_witness :
    ((Side.Front ≠ Side.Top ∧ Side.Front ≠ Side.Bottom) ∧
     ((proj_22_5_iso ⟨2, 2, 2⟩ .Front).map (fun t => t.1 ⟨0, 0, 1, 1⟩) =
        (proj_45_iso ⟨2, 2, 2⟩ .Front).map (fun t => t.1 ⟨0, 0, 1, 1⟩) ∧
      (proj_22_5_iso ⟨2, 2, 2⟩ .Front).map (fun t => t.2.1 ⟨0, 0, 1, 1⟩) =
        (proj_45_iso ⟨2, 2, 2⟩ .Front).map (fun t => 2 * t.2.1 ⟨0, 0, 1, 1⟩) ∧
      (proj_22_5_iso ⟨2, 2, 2⟩ .Front).map (fun t => t.2.2 ⟨0, 0, 1, 1⟩) =
        (proj_45_iso ⟨2, 2, 2⟩ .Front).map
          (fun t => t.2.2 ⟨0, 0, 1, 1⟩ + 2 * Size.invert_z ⟨2, 2, 2⟩ ⟨0, 0, 1, 1⟩))) :=
  ⟨⟨by decide, by decide⟩,
   tw25iso_eq_45iso_amended ⟨2, 2, 2⟩ .Front ⟨0, 0, 1, 1⟩ ⟨by decide, by decide⟩⟩

/-- C5 counterexample: at size (2,2,2), side Front, voxel (0,0,1), the 22.5
vertical screen coordinate is 4 = 2·invert_z + invert_y, not the claimed
invert_z + 2·invert_y = 5 (the code doubles the vertical-axis contribution,
not the depth-axis one). -/
theorem tw25_claim_counterexample :
    (proj_22_5 ⟨2, 2, 2⟩ .Front).map (fun t => t.2.2 ⟨0, 0, 1, 1⟩) = some 4 ∧
    Size.invert_z ⟨2, 2, 2⟩ ⟨0, 0, 1, 1⟩ +
      2 * Size.invert_y ⟨2, 2, 2⟩ ⟨0, 0, 1, 1⟩ = 5 ∧
    (4 : Nat) ≠ 5 := by
  decide

/-- C5 (amended): for each lateral side, the 22.5 projection has the same depth
sort key as the 45 one, its horizontal screen coordinate doubled, and its
vertical screen coordinate equal to the 45 one plus one extra invert-z term
(the vertical-axis contribution doubled, the depth-axis contribution
unchanged). -/
theorem tw25_eq_45_amended (size : Size) (side : Side) (v : Voxel)
    (h : side ≠ Side.Top ∧ side ≠ Side.Bottom) :
    (proj_22_5 size side).map (fun t => t.1 v) =
      (proj_45 size side).map (fun t => t.1 v) ∧
    (proj_22_5 size side).map (fun t => t.2.1 v) =
      (proj_45 size side).map (fun t => 2 * t.2.1 v) ∧
    (proj_22_5 size side).map (fun t => t.2.2 v) =
      (proj_45 size side).map (fun t => t.2.2 v + size.invert_z v) := by
  obtain ⟨hT, hB⟩ := h
  cases side
  · exact absurd rfl hT
  all_goals first
    | exact absurd rfl hB
    | refine ⟨?_, ?_, ?_⟩ <;>
        simp only [proj_22_5, proj_45, Option.map_some', Option.some.injEq] <;>
        omega

/-! Canvas and painting lemmas used by the painter's-algorithm and
canvas-sizing claims. -/

theorem Canvas.width_putPixel (c : Canvas) (x y : Nat) (p : Rgba) :
    (c.putPixel x y p).width = c.width := by
  unfold Canvas.putPixel
  split <;> rfl

theorem Canvas.height_putPixel (c : Canvas) (x y : Nat) (p : Rgba) :
    (c.putPixel x y p).height = c.height := by
  unfold Canvas.putPixel
  split <;> rfl

theorem Canvas.wf_new (w h : Nat) : (Canvas.new w h).Wf := by
  simp [Canvas.new, Canvas.Wf]

theorem Canvas.wf_putPixel (c : Canvas) (x y : Nat) (p : Rgba) (hc : c.Wf) :
    (c.putPixel x y p).Wf := by
  unfold Canvas.putPixel
  split
  · simpa [Canvas.Wf] using hc
  · exact hc

/-- In a row-major raster, advancing to a strictly later row advances the
linear index past any in-row offset. -/
theorem row_lt_row {w a b j k : Nat} (ha : a < w) (hjk : j < k) :
    a + j * w < b + k * w := by
  have h1 : a + j * w < (j + 1) * w := by
    have h2 : (j + 1) * w = j * w + w := Nat.succ_mul j w
    omega
  have h3 : (j + 1) * w ≤ k * w := Nat.mul_le_mul_right w hjk
  omega

/-- Distinct in-bounds (x, y) positions have distinct linear indices. -/
theorem linearIndex_inj {w a b j k : Nat} (ha : a < w) (hb : b < w)
    (h : a + j * w = b + k * w) : a = b ∧ j = k := by
  rcases Nat.lt_trichotomy j k with hlt | he | hgt
  · exact absurd h (Nat.ne_of_lt (row_lt_row ha hlt))
  · subst he
    exact ⟨by omega, rfl⟩
  · exact absurd h (Nat.ne_of_gt (row_lt_row hb hgt))

theorem Canvas.get_putPixel_self (c : Canvas) (x y : Nat) (p : Rgba)
    (hwf : c.Wf) (hx : x < c.width) (hy : y < c.height) :
    (c.putPixel x y p).get x y = p := by
  have hidx : x + y * c.width < c.data.length := by
    rw [hwf]
    have h0 : x + y * c.width < 0 + c.height * c.width :=
      row_lt_row (b := 0) hx hy
    have h1 : c.height * c.width = c.width * c.height := Nat.mul_comm _ _
    omega
  unfold Canvas.putPixel Canvas.get
  rw [if_pos ⟨hx, hy⟩]
  simp [List.getElem?_set_self hidx]

theorem Canvas.get_putPixel_of_ne (c : Canvas) (x y qx qy : Nat) (p : Rgba)
    (hqx : qx < c.width) (hne : (x, y) ≠ (qx, qy)) :
    (c.putPixel x y p).get qx qy = c.get qx qy := by
  unfold Canvas.putPixel Canvas.get
  split
  · next hb =>
    have hidx : x + y * c.width ≠ qx + qy * c.width := by
      intro h
      obtain ⟨h1, h2⟩ := linearIndex_inj hb.1 hqx h
      exact hne (by rw [h1, h2])
    simp [List.getElem?_set_ne hidx]
  · rfl

theorem paintStamp_nil (img : Canvas) : paintStamp [] img = img := rfl

theorem paintStamp_cons (t : Nat × Nat × Rgba) (puts : List (Nat × Nat × Rgba))
    (img : Canvas) :
    paintStamp (t :: puts) img = paintStamp puts (img.putPixel t.1 t.2.1 t.2.2) := rfl

theorem width_paintStamp (puts : List (Nat × Nat × Rgba)) (img : Canvas) :
    (paintStamp puts img).width = img.width := by
  induction puts generalizing img with
  | nil => rfl
  | cons t rest ih => rw [paintStamp_cons, ih, Canvas.width_putPixel]

theorem height_paintStamp (puts : List (Nat × Nat × Rgba)) (img : Canvas) :
    (paintStamp puts img).height = img.height := by
  induction puts generalizing img with
  | nil => rfl
  | cons t rest ih => rw [paintStamp_cons, ih, Canvas.height_putPixel]

theorem wf_paintStamp (puts : List (Nat × Nat × Rgba)) (img : Canvas) (h : img.Wf) :
    (paintStamp puts img).Wf := by
  induction puts generalizing img with
  | nil => exact h
  | cons t rest ih => exact ih _ (Canvas.wf_putPixel _ _ _ _ h)

/-- A pixel no put of the stamp touches is unchanged by painting the stamp. -/
theorem get_paintStamp_of_notMem (puts : List (Nat × Nat × Rgba)) (img : Canvas)
    (qx qy : Nat) (hqx : qx < img.width)
    (h : (qx, qy) ∉ puts.map fun t => (t.1, t.2.1)) :
    (paintStamp puts img).get qx qy = img.get qx qy := by
  induction puts generalizing img with
  | nil => rfl
  | cons t rest ih =>
    rw [List.map_cons, List.mem_cons] at h
    push_neg at h
    rw [paintStamp_cons,
      ih _ (by rw [Canvas.width_putPixel]; exact hqx) h.2]
    exact Canvas.get_putPixel_of_ne _ _ _ _ _ _ hqx (fun he => h.1 he.symm)

/-- Painting a stamp whose puts sit at pairwise-distinct in-bounds positions
leaves each put's colour at its position. -/
theorem get_paintStamp_of_mem (puts : List (Nat × Nat × Rgba)) (img : Canvas)
    (hwf : img.Wf)
    (hb : ∀ t ∈ puts, t.1 < img.width ∧ t.2.1 < img.height)
    (hd : (puts.map fun t => (t.1, t.2.1)).Pairwise (· ≠ ·)) :
    ∀ t ∈ puts, (paintStamp puts img).get t.1 t.2.1 = t.2.2 := by
  induction puts generalizing img with
  | nil => intro t ht; cases ht
  | cons s rest ih =>
    rw [List.map_cons, List.pairwise_cons] at hd
    intro t ht
    rcases List.mem_cons.mp ht with he | hm
    · subst he
      have hbs := hb t (List.mem_cons_self _ _)
      rw [paintStamp_cons,
        get_paintStamp_of_notMem rest _ t.1 t.2.1
          (by rw [Canvas.width_putPixel]; exact hbs.1)
          (fun hmem => hd.1 _ hmem rfl)]
      exact Canvas.get_putPixel_self img t.1 t.2.1 t.2.2 hwf hbs.1 hbs.2
    · rw [paintStamp_cons]
      exact ih (img.putPixel s.1 s.2.1 s.2.2)
        (Canvas.wf_putPixel _ _ _ _ hwf)
        (fun u hu => by
          rw [Canvas.width_putPixel, Canvas.height_putPixel]
          exact hb u (List.mem_cons_of_mem _ hu))
        hd.2 t hm

/-! The paint loop of render_closure, as a fold of stamps. -/

theorem width_foldPaint (l : List Voxel) (img : Canvas)
    (g : Voxel → List (Nat × Nat × Rgba)) :
    (l.foldl (fun img v => paintStamp (g v) img) img).width = img.width := by
  induction l generalizing img with
  | nil => rfl
  | cons v rest ih => rw [List.foldl_cons, ih, width_paintStamp]

theorem height_foldPaint (l : List Voxel) (img : Canvas)
    (g : Voxel → List (Nat × Nat × Rgba)) :
    (l.foldl (fun img v => paintStamp (g v) img) img).height = img.height := by
  induction l generalizing img with
  | nil => rfl
  | cons v rest ih => rw [List.foldl_cons, ih, height_paintStamp]

theorem wf_foldPaint (l : List Voxel) (img : Canvas)
    (g : Voxel → List (Nat × Nat × Rgba)) (h : img.Wf) :
    (l.foldl (fun img v => paintStamp (g v) img) img).Wf := by
  induction l generalizing img with
  | nil => exact h
  | cons v rest ih => exact ih _ (wf_paintStamp _ _ h)

/-- A pixel covered by no painted voxel's stamp is unchanged by the paint loop. -/
theorem get_foldPaint_of_notCovered (l : List Voxel) (img : Canvas)
    (g : Voxel → List (Nat × Nat × Rgba)) (qx qy : Nat)
    (hqx : qx < img.width)
    (h : ∀ v ∈ l, (qx, qy) ∉ (g v).map fun t => (t.1, t.2.1)) :
    (l.foldl (fun img v => paintStamp (g v) img) img).get qx qy = img.get qx qy := by
  induction l generalizing img with
  | nil => rfl
  | cons v rest ih =>
    rw [List.foldl_cons,
      ih _ (by rw [width_paintStamp]; exact hqx)
        (fun u hu => h u (List.mem_cons_of_mem _ hu)),
      get_paintStamp_of_notMem _ _ _ _ hqx (h v (List.mem_cons_self _ _))]

/-! Sorting lemmas. -/

theorem sortByKey_perm (key : Voxel → Nat) (l : List Voxel) : (sortByKey key l).Perm l :=
  List.perm_insertionSort _ l

theorem sortByKey_sorted (key : Voxel → Nat) (l : List Voxel) :
    (sortByKey key l).Pairwise (fun a b => key a ≤ key b) := by
  haveI : IsTotal Voxel (fun a b => key a ≤ key b) := ⟨fun a b => Nat.le_total _ _⟩
  haveI : IsTrans Voxel (fun a b => key a ≤ key b) :=
    ⟨fun a b c hab hbc => Nat.le_trans hab hbc⟩
  exact List.sorted_insertionSort _ l

/-- Any member of a list has a final occurrence: a split after which it does
not recur. -/
theorem exists_split_notMem {α : Type} [DecidableEq α] {a : α} {l : List α}
    (h : a ∈ l) : ∃ l1 l2, l = l1 ++ a :: l2 ∧ a ∉ l2 := by
  induction l with
  | nil => cases h
  | cons b t ih =>
    by_cases hat : a ∈ t
    · obtain ⟨l1, l2, he, hn⟩ := ih hat
      exact ⟨b :: l1, l2, by rw [he]; rfl, hn⟩
    · rcases List.mem_cons.mp h with he | hm
      · exact ⟨[], t, by rw [he]; rfl, hat⟩
      · exact absurd hm hat

/-! Maximum lemmas relating the canvas-sizing expression to the unsorted
voxel list. -/

theorem max?_getD_eq_foldl (l : List Nat) : l.max?.getD 0 = l.foldl max 0 := by
  cases l with
  | nil => rfl
  | cons a t =>
    rw [List.max?_cons', Option.getD_some, List.foldl_cons, Nat.zero_max]

theorem foldl_max_init_le (l : List Nat) : ∀ init, init ≤ l.foldl max init := by
  induction l with
  | nil => exact fun init => Nat.le_refl _
  | cons a t ih =>
    exact fun init => Nat.le_trans (Nat.le_max_left init a) (ih (max init a))

theorem le_foldl_max_of_mem (l : List Nat) :
    ∀ init a, a ∈ l → a ≤ l.foldl max init := by
  induction l with
  | nil => intro _ _ h; cases h
  | cons b t ih =>
    intro init a h
    rcases List.mem_cons.mp h with he | hm
    · subst he
      exact Nat.le_trans (Nat.le_max_right init a) (foldl_max_init_le t _)
    · exact ih _ a hm

theorem foldl_max_perm {l1 l2 : List Nat} (h : l1.Perm l2) (init : Nat) :
    l1.foldl max init = l2.foldl max init := by
  haveI : RightCommutative (max : Nat → Nat → Nat) :=
    ⟨fun b a1 a2 => by rw [Nat.max_assoc, Nat.max_comm a1 a2, ← Nat.max_assoc]⟩
  exact h.foldl_eq init

theorem max?_getD_perm {l1 l2 : List Nat} (h : l1.Perm l2) :
    l1.max?.getD 0 = l2.max?.getD 0 := by
  rw [max?_getD_eq_foldl, max?_getD_eq_foldl]
  exact foldl_max_perm h 0

/-! Per-view stamp facts: every put stays within the view's padding of the
anchor, and the puts of one stamp sit at pairwise-distinct positions. -/

theorem stamp_extent (view : View) (pal : List Nat) (x y i : Nat) :
    ∀ t ∈ putsFnOf view pal x y i,
      t.1 ≤ x + xPadOf view ∧ t.2.1 ≤ y + yPadOf view := by
  have hr : List.range' (y + 1) 3 = [y + 1, y + 2, y + 3] := rfl
  cases view <;>
    simp [putsFnOf, puts_face, puts_45, puts_22_5, puts_45_iso, puts_22_5_iso,
      xPadOf, yPadOf, hr]

theorem stamp_positions_distinct (view : View) (x y : Nat) :
    (stampPositions view x y).Pairwise (· ≠ ·) := by
  have hr : List.range' (y + 1) 3 = [y + 1, y + 2, y + 3] := rfl
  cases view <;>
    simp [stampPositions, hr, List.pairwise_cons, Prod.mk.injEq]

/-- The put sequence of a voxel's stamp has pairwise-distinct positions. -/
theorem putsFnOf_positions_distinct (view : View) (pal : List Nat) (x y i : Nat) :
    ((putsFnOf view pal x y i).map fun t => (t.1, t.2.1)).Pairwise (· ≠ ·) := by
  rw [putsFnOf_positions]
  exact stamp_positions_distinct view x y

/-- The workhorse behind the painter's-algorithm claim: in any render, a voxel
dominant for its own stamp pixels — every other voxel of the model either does
not cover them or has a strictly smaller depth key — determines the final
canvas contents at all of its stamp's positions. -/
theorem render_closure_get_dominant (m : Model) (pal : List Nat) (view : View)
    (k fx fy : Voxel → Nat) (v : Voxel)
    (hv : v ∈ m.voxels)
    (hdom : ∀ w ∈ m.voxels, w ≠ v →
      (∀ p ∈ stampPositions view (fx v) (fy v),
        p ∉ stampPositions view (fx w) (fy w)) ∨ k w < k v) :
    ∀ t ∈ putsFnOf view pal (fx v) (fy v) v.i,
      (render_closure m pal (xPadOf view) (yPadOf view) (putsFnOf view) k fx fy).get
        t.1 t.2.1 = t.2.2 := by
  intro t ht
  have hperm := sortByKey_perm k m.voxels
  have hvs : v ∈ sortByKey k m.voxels := hperm.mem_iff.mpr hv
  obtain ⟨l1, l2, hsplit, hnotin⟩ := exists_split_notMem hvs
  have hsortedlist := sortByKey_sorted k m.voxels
  rw [hsplit] at hsortedlist
  have hafter : ∀ w ∈ l2, k v ≤ k w := by
    have h2 := (List.pairwise_append.mp hsortedlist).2.1
    exact (List.pairwise_cons.mp h2).1
  -- shorthand for the canvas dimensions the closure computes
  set W := (((sortByKey k m.voxels).map fx).max?).getD 0 + xPadOf view + 1 with hW
  set H := (((sortByKey k m.voxels).map fy).max?).getD 0 + yPadOf view + 1 with hH
  have hmemW : ∀ w ∈ sortByKey k m.voxels, fx w + xPadOf view < W := by
    intro w hw
    have h1 : fx w ≤ (((sortByKey k m.voxels).map fx).max?).getD 0 := by
      rw [max?_getD_eq_foldl]
      exact le_foldl_max_of_mem _ 0 (fx w) (List.mem_map_of_mem fx hw)
    omega
  have hmemH : ∀ w ∈ sortByKey k m.voxels, fy w + yPadOf view < H := by
    intro w hw
    have h1 : fy w ≤ (((sortByKey k m.voxels).map fy).max?).getD 0 := by
      rw [max?_getD_eq_foldl]
      exact le_foldl_max_of_mem _ 0 (fy w) (List.mem_map_of_mem fy hw)
    omega
  have hext := stamp_extent view pal (fx v) (fy v) v.i t ht
  have htx : t.1 < W := by have := hmemW v hvs; omega
  have hty : t.2.1 < H := by have := hmemH v hvs; omega
  -- unfold the render into paint phases: before v, v itself, after v
  show ((sortByKey k m.voxels).foldl
      (fun img w => paintStamp (putsFnOf view pal (fx w) (fy w) w.i) img)
      (Canvas.new W H)).get t.1 t.2.1 = t.2.2
  rw [hsplit, List.foldl_append, List.foldl_cons]
  set g := fun w => putsFnOf view pal (fx w) (fy w) w.i with hg
  set img0 := l1.foldl (fun img w => paintStamp (g w) img) (Canvas.new W H) with himg0
  have himg0w : img0.width = W := width_foldPaint l1 _ g
  have himg0h : img0.height = H := height_foldPaint l1 _ g
  have himg0wf : img0.Wf := wf_foldPaint l1 _ g (Canvas.wf_new W H)
  set img1 := paintStamp (g v) img0 with himg1
  have himg1w : img1.width = img0.width := width_paintStamp _ _
  have hpos : (t.1, t.2.1) ∈ stampPositions view (fx v) (fy v) := by
    rw [← putsFnOf_positions view pal (fx v) (fy v) v.i]
    exact List.mem_map_of_mem _ ht
  rw [get_foldPaint_of_notCovered l2 img1 g t.1 t.2.1
      (by rw [himg1w, himg0w]; exact htx) ?nocover]
  case nocover =>
    intro w hw
    have hwks : w ∈ sortByKey k m.voxels := by
      rw [hsplit]
      exact List.mem_append_right l1 (List.mem_cons_of_mem v hw)
    have hwm : w ∈ m.voxels := hperm.mem_iff.mp hwks
    have hwv : w ≠ v := fun he => hnotin (he ▸ hw)
    rw [putsFnOf_positions]
    rcases hdom w hwm hwv with hno | hlt
    · exact hno _ hpos
    · exact absurd hlt (Nat.not_lt.mpr (hafter w hw))
  rw [himg1]
  exact get_paintStamp_of_mem (g v) img0 himg0wf
    (fun s hs => by
      have hse := stamp_extent view pal (fx v) (fy v) v.i s hs
      rw [himg0w, himg0h]
      have h1 := hmemW v hvs
      have h2 := hmemH v hvs
      exact ⟨by omega, by omega⟩)
    (putsFnOf_positions_distinct view pal (fx v) (fy v) v.i) t ht

/-- C5 witness at size (2,2,2), side Front, voxel (0,0,1). -/
theorem tw25_eq_45_amended_witness :
    ((Side.Front ≠ Side.Top ∧ Side.Front ≠ Side.Bottom) ∧
     ((proj_22_5 ⟨2, 2, 2⟩ .Front).map (fun t => t.1 ⟨0, 0, 1, 1⟩) =
        (proj_45 ⟨2, 2, 2⟩ .Front).map (fun t => t.1 ⟨0, 0, 1, 1⟩) ∧
      (proj_22_5 ⟨2, 2, 2⟩ .Front).map (fun t => t.2.1 ⟨0, 0, 1, 1⟩) =
        (proj_45 ⟨2, 2, 2⟩ .Front).map (fun t => 2 * t.2.1 ⟨0, 0, 1, 1⟩) ∧
      (proj_22_5 ⟨2, 2, 2⟩ .Front).map (fun t => t.2.2 ⟨0, 0, 1, 1⟩) =
        (proj_45 ⟨2, 2, 2⟩ .Front).map
          (fun t => t.2.2 ⟨0, 0, 1, 1⟩ + Size.invert_z ⟨2, 2, 2⟩ ⟨0, 0, 1, 1⟩))) :=
  ⟨⟨by decide, by decide⟩,
   tw25_eq_45_amended ⟨2, 2, 2⟩ .Front ⟨0, 0, 1, 1⟩ ⟨by decide, by decide⟩⟩

/-- C1 counterexample: in the three-voxel Face/Front model below, voxels
u = (0,2,0) and v = (0,1,0) share screen position (0,1) and have distinct depth
keys 1 < 2, yet the finished canvas shows the colour of the third voxel
w = (0,0,0) (key 3, same pixel), not v's colour, so the claim as stated —
quantified over any two voxels of any model — fails. -/
theorem painters_claim_counterexample :
    (proj_face ⟨1, 3, 1⟩ Side.Front).2.1 ⟨0, 2, 0, 1⟩ =
      (proj_face ⟨1, 3, 1⟩ Side.Front).2.1 ⟨0, 1, 0, 2⟩ ∧
    (proj_face ⟨1, 3, 1⟩ Side.Front).2.2 ⟨0, 2, 0, 1⟩ =
      (proj_face ⟨1, 3, 1⟩ Side.Front).2.2 ⟨0, 1, 0, 2⟩ ∧
    (proj_face ⟨1, 3, 1⟩ Side.Front).1 ⟨0, 2, 0, 1⟩ <
      (proj_face ⟨1, 3, 1⟩ Side.Front).1 ⟨0, 1, 0, 2⟩ ∧
    (render ⟨⟨1, 3, 1⟩, [⟨0, 2, 0, 1⟩, ⟨0, 1, 0, 2⟩, ⟨0, 0, 0, 3⟩]⟩
        [(0xFF0000FF : Nat), 0xFF00FF00, 0xFFFF0000] Side.Front View.Face).map
      (fun c => c.get ((proj_face ⟨1, 3, 1⟩ Side.Front).2.1 ⟨0, 1, 0, 2⟩)
        ((proj_face ⟨1, 3, 1⟩ Side.Front).2.2 ⟨0, 1, 0, 2⟩)) =
      some (colourT [(0xFF0000FF : Nat), 0xFF00FF00, 0xFFFF0000] 3 0) ∧
    colourT [(0xFF0000FF : Nat), 0xFF00FF00, 0xFFFF0000] 3 0 ≠
      colourT [(0xFF0000FF : Nat), 0xFF00FF00, 0xFFFF0000] 2 0 := by
  decide

/-- C1 (amended): for every rendered (side, view) pair and voxels u, v of the
model with equal screen coordinates and depth keys k u < k v, if additionally
every other voxel of the model whose stamp covers one of v's stamp pixels has a
depth key strictly below k v, then the finished canvas carries v's stamp —
position by position, with v's shade at each offset — at those shared pixels,
whatever the initial order of the voxel list: the engine sorts ascending by
depth key and later voxels overwrite earlier ones at the same pixel. -/
theorem painters_algorithm_amended (m : Model) (pal : List Nat) (u v : Voxel)
    (side : Side) (view : View) (k fx fy : Voxel → Nat) (c : Canvas)
    (hproj : projOf m.size view side = some (k, fx, fy))
    (hu : u ∈ m.voxels) (hv : v ∈ m.voxels)
    (hx : fx u = fx v) (hy : fy u = fy v)
    (hk : k u < k v)
    (hothers : ∀ w ∈ m.voxels, w ≠ u → w ≠ v →
      ∀ p ∈ stampPositions view (fx v) (fy v),
        p ∈ stampPositions view (fx w) (fy w) → k w < k v)
    (hrender : render m pal side view = some c) :
    ∀ t ∈ putsFnOf view pal (fx v) (fy v) v.i, c.get t.1 t.2.1 = t.2.2 := by
  rw [render_eq, hproj, Option.map_some'] at hrender
  have hc := Option.some.inj hrender
  subst hc
  apply render_closure_get_dominant m pal view k fx fy v hv
  intro w hw hwv
  by_cases hwu : w = u
  · subst hwu
    exact Or.inr hk
  · by_cases hov : ∀ p ∈ stampPositions view (fx v) (fy v),
        p ∉ stampPositions view (fx w) (fy w)
    · exact Or.inl hov
    · push_neg at hov
      obtain ⟨p, hp1, hp2⟩ := hov
      exact Or.inr (hothers w hw hwu hwv p hp1 hp2)

/-- C1 witness: size (1,2,1), Face/Front, u = (0,1,0) (key 1), v = (0,0,0)
(key 2), both at screen (0,1); the painted pixel is v's green, not u's red,
for the initial order [v, u]. -/
theorem painters_algorithm_amended_witness :
    projOf (⟨1, 2, 1⟩ : Size) View.Face Side.Front =
      some ((proj_face ⟨1, 2, 1⟩ Side.Front).1,
        (proj_face ⟨1, 2, 1⟩ Side.Front).2.1,
        (proj_face ⟨1, 2, 1⟩ Side.Front).2.2) ∧
    (⟨0, 1, 0, 1⟩ : Voxel) ∈ [(⟨0, 0, 0, 2⟩ : Voxel), ⟨0, 1, 0, 1⟩] ∧
    (⟨0, 0, 0, 2⟩ : Voxel) ∈ [(⟨0, 0, 0, 2⟩ : Voxel), ⟨0, 1, 0, 1⟩] ∧
    (proj_face ⟨1, 2, 1⟩ Side.Front).2.1 ⟨0, 1, 0, 1⟩ =
      (proj_face ⟨1, 2, 1⟩ Side.Front).2.1 ⟨0, 0, 0, 2⟩ ∧
    (proj_face ⟨1, 2, 1⟩ Side.Front).2.2 ⟨0, 1, 0, 1⟩ =
      (proj_face ⟨1, 2, 1⟩ Side.Front).2.2 ⟨0, 0, 0, 2⟩ ∧
    (proj_face ⟨1, 2, 1⟩ Side.Front).1 ⟨0, 1, 0, 1⟩ <
      (proj_face ⟨1, 2, 1⟩ Side.Front).1 ⟨0, 0, 0, 2⟩ ∧
    (∀ w ∈ [(⟨0, 0, 0, 2⟩ : Voxel), ⟨0, 1, 0, 1⟩], w ≠ ⟨0, 1, 0, 1⟩ →
      w ≠ ⟨0, 0, 0, 2⟩ →
      ∀ p ∈ stampPositions View.Face
          ((proj_face ⟨1, 2, 1⟩ Side.Front).2.1 ⟨0, 0, 0, 2⟩)
          ((proj_face ⟨1, 2, 1⟩ Side.Front).2.2 ⟨0, 0, 0, 2⟩),
        p ∈ stampPositions View.Face
          ((proj_face ⟨1, 2, 1⟩ Side.Front).2.1 w)
          ((proj_face ⟨1, 2, 1⟩ Side.Front).2.2 w) →
        (proj_face ⟨1, 2, 1⟩ Side.Front).1 w <
          (proj_face ⟨1, 2, 1⟩ Side.Front).1 ⟨0, 0, 0, 2⟩) ∧
    render ⟨⟨1, 2, 1⟩, [⟨0, 0, 0, 2⟩, ⟨0, 1, 0, 1⟩]⟩
        [(0xFF0000FF : Nat), 0xFF00FF00] Side.Front View.Face =
      some ⟨1, 2, [transparent, ⟨0, 255, 0, 255⟩]⟩ ∧
    (∀ t ∈ putsFnOf View.Face [(0xFF0000FF : Nat), 0xFF00FF00]
        ((proj_face ⟨1, 2, 1⟩ Side.Front).2.1 ⟨0, 0, 0, 2⟩)
        ((proj_face ⟨1, 2, 1⟩ Side.Front).2.2 ⟨0, 0, 0, 2⟩)
        (⟨0, 0, 0, 2⟩ : Voxel).i,
      (⟨1, 2, [transparent, ⟨0, 255, 0, 255⟩]⟩ : Canvas).get t.1 t.2.1 = t.2.2) :=
  ⟨rfl, by decide, by decide, by decide, by decide, by decide, by decide, by decide,
   painters_algorithm_amended ⟨⟨1, 2, 1⟩, [⟨0, 0, 0, 2⟩, ⟨0, 1, 0, 1⟩]⟩
     [(0xFF0000FF : Nat), 0xFF00FF00] ⟨0, 1, 0, 1⟩ ⟨0, 0, 0, 2⟩
     Side.Front View.Face _ _ _ ⟨1, 2, [transparent, ⟨0, 255, 0, 255⟩]⟩
     rfl (by decide) (by decide) (by decide) (by decide) (by decide)
     (by decide) (by decide)⟩

/-- C2: for every rendered (side, view) pair, the canvas is exactly
max(screen_x) + x_pad + 1 wide and max(screen_y) + y_pad + 1 high, with
(x_pad, y_pad) = (0,0) Face, (0,1) FortyFive, (1,1) FortyFiveIso, (1,2)
TwentyTwoFive, (3,3) TwentyTwoFiveIso, and every pixel of every voxel's stamp
lies strictly inside those bounds (no clipping, no wider border). -/
theorem canvas_dims_exact (m : Model) (pal : List Nat) (side : Side) (view : View)
    (k fx fy : Voxel → Nat) (c : Canvas)
    (hproj : projOf m.size view side = some (k, fx, fy))
    (_hne : m.voxels ≠ [])
    (hrender : render m pal side view = some c) :
    c.width = ((m.voxels.map fx).max?).getD 0 + xPadOf view + 1 ∧
    c.height = ((m.voxels.map fy).max?).getD 0 + yPadOf view + 1 ∧
    ∀ v ∈ m.voxels, ∀ t ∈ putsFnOf view pal (fx v) (fy v) v.i,
      t.1 < c.width ∧ t.2.1 < c.height := by
  rw [render_eq, hproj, Option.map_some'] at hrender
  have hc := Option.some.inj hrender
  subst hc
  have hpx : ((sortByKey k m.voxels).map fx).max?.getD 0 =
      (m.voxels.map fx).max?.getD 0 :=
    max?_getD_perm ((sortByKey_perm k m.voxels).map fx)
  have hpy : ((sortByKey k m.voxels).map fy).max?.getD 0 =
      (m.voxels.map fy).max?.getD 0 :=
    max?_getD_perm ((sortByKey_perm k m.voxels).map fy)
  have hwidth : (render_closure m pal (xPadOf view) (yPadOf view) (putsFnOf view)
      k fx fy).width = (m.voxels.map fx).max?.getD 0 + xPadOf view + 1 := by
    show (List.foldl _ (Canvas.new _ _) _).width = _
    rw [width_foldPaint]
    show ((sortByKey k m.voxels).map fx).max?.getD 0 + xPadOf view + 1 = _
    rw [hpx]
  have hheight : (render_closure m pal (xPadOf view) (yPadOf view) (putsFnOf view)
      k fx fy).height = (m.voxels.map fy).max?.getD 0 + yPadOf view + 1 := by
    show (List.foldl _ (Canvas.new _ _) _).height = _
    rw [height_foldPaint]
    show ((sortByKey k m.voxels).map fy).max?.getD 0 + yPadOf view + 1 = _
    rw [hpy]
  refine ⟨hwidth, hheight, ?_⟩
  intro v hv t ht
  have hext := stamp_extent view pal (fx v) (fy v) v.i t ht
  have hfx : fx v ≤ (m.voxels.map fx).max?.getD 0 := by
    rw [max?_getD_eq_foldl]
    exact le_foldl_max_of_mem _ 0 (fx v) (List.mem_map_of_mem fx hv)
  have hfy : fy v ≤ (m.voxels.map fy).max?.getD 0 := by
    rw [max?_getD_eq_foldl]
    exact le_foldl_max_of_mem _ 0 (fy v) (List.mem_map_of_mem fy hv)
  rw [hwidth, hheight]
  exact ⟨by omega, by omega⟩

/-- C2 witness: the single-voxel model rendered Front / FortyFive gives a
1 × 4 canvas and every stamp pixel lies inside it. -/
theorem canvas_dims_exact_witness :
    projOf (⟨1, 1, 1⟩ : Size) View.FourtyFive Side.Front =
      some (fun v => v.z + Size.invert_y ⟨1, 1, 1⟩ v, fun v => v.x,
        fun v => Size.invert_z ⟨1, 1, 1⟩ v + Size.invert_y ⟨1, 1, 1⟩ v) ∧
    ([(⟨0, 0, 0, 1⟩ : Voxel)] ≠ ([] : List Voxel)) ∧
    render ⟨⟨1, 1, 1⟩, [⟨0, 0, 0, 1⟩]⟩ [(0xFF0000FF : Nat)] Side.Front
        View.FourtyFive =
      some ⟨1, 4, [transparent, transparent, ⟨255, 0, 0, 255⟩, ⟨225, 0, 0, 255⟩]⟩ ∧
    ((⟨1, 4, [transparent, transparent, ⟨255, 0, 0, 255⟩, ⟨225, 0, 0, 255⟩]⟩ :
        Canvas).width =
      (([(⟨0, 0, 0, 1⟩ : Voxel)].map (fun v => v.x)).max?).getD 0 +
        xPadOf View.FourtyFive + 1 ∧
    (⟨1, 4, [transparent, transparent, ⟨255, 0, 0, 255⟩, ⟨225, 0, 0, 255⟩]⟩ :
        Canvas).height =
      (([(⟨0, 0, 0, 1⟩ : Voxel)].map
          (fun v => Size.invert_z ⟨1, 1, 1⟩ v + Size.invert_y ⟨1, 1, 1⟩ v)).max?).getD 0 +
        yPadOf View.FourtyFive + 1 ∧
    ∀ v ∈ [(⟨0, 0, 0, 1⟩ : Voxel)],
      ∀ t ∈ putsFnOf View.FourtyFive [(0xFF0000FF : Nat)] v.x
          (Size.invert_z ⟨1, 1, 1⟩ v + Size.invert_y ⟨1, 1, 1⟩ v) v.i,
        t.1 < (⟨1, 4, [transparent, transparent, ⟨255, 0, 0, 255⟩,
            ⟨225, 0, 0, 255⟩]⟩ : Canvas).width ∧
        t.2.1 < (⟨1, 4, [transparent, transparent, ⟨255, 0, 0, 255⟩,
            ⟨225, 0, 0, 255⟩]⟩ : Canvas).height) :=
  ⟨rfl, by decide, by decide,
   canvas_dims_exact ⟨⟨1, 1, 1⟩, [⟨0, 0, 0, 1⟩]⟩ [(0xFF0000FF : Nat)]
     Side.Front View.FourtyFive _ _ _
     ⟨1, 4, [transparent, transparent, ⟨255, 0, 0, 255⟩, ⟨225, 0, 0, 255⟩]⟩
     rfl (by decide) (by decide)⟩

/-- C6: the render driver emits exactly one canvas for a (side, view)
combination when view is Face or the side is lateral, and none at all — no
error, silently skipped — when a Top or Bottom side meets a non-Face view. -/
theorem renderAll_combination_count (m : Model) (pal : List Nat)
    (side : Side) (view : View) :
    ((render_all m pal Side.all View.all).map Prod.fst).count (side, view) =
      if view = View.Face ∨ (side ≠ Side.Top ∧ side ≠ Side.Bottom) then 1
      else 0 := by
  cases side <;> cases view <;> rfl

/-- C9: the render is a pure function of the model contents, palette, side and
view: two renders from identical independent copies of the voxel list yield
identical canvases, for every combination the driver accepts. -/
theorem render_deterministic (m1 m2 : Model) (pal : List Nat)
    (side : Side) (view : View)
    (_hcombo : view = View.Face ∨ (side ≠ Side.Top ∧ side ≠ Side.Bottom))
    (hsize : m1.size = m2.size) (hvox : m1.voxels = m2.voxels) :
    render m1 pal side view = render m2 pal side view := by
  obtain ⟨s1, l1⟩ := m1
  obtain ⟨s2, l2⟩ := m2
  cases hsize
  cases hvox
  rfl

/-- C9 witness: two copies of the single-voxel model, Front / Face. -/
theorem render_deterministic_witness :
    (View.Face = View.Face ∨ (Side.Front ≠ Side.Top ∧ Side.Front ≠ Side.Bottom)) ∧
    (⟨⟨1, 1, 1⟩, [⟨0, 0, 0, 1⟩]⟩ : Model).size =
      (⟨⟨1, 1, 1⟩, [⟨0, 0, 0, 1⟩]⟩ : Model).size ∧
    (⟨⟨1, 1, 1⟩, [⟨0, 0, 0, 1⟩]⟩ : Model).voxels =
      (⟨⟨1, 1, 1⟩, [⟨0, 0, 0, 1⟩]⟩ : Model).voxels ∧
    render ⟨⟨1, 1, 1⟩, [⟨0, 0, 0, 1⟩]⟩ [(0xFF0000FF : Nat)] Side.Front View.Face =
      render ⟨⟨1, 1, 1⟩, [⟨0, 0, 0, 1⟩]⟩ [(0xFF0000FF : Nat)] Side.Front View.Face :=
  ⟨Or.inl rfl, rfl, rfl,
   render_deterministic ⟨⟨1, 1, 1⟩, [⟨0, 0, 0, 1⟩]⟩ ⟨⟨1, 1, 1⟩, [⟨0, 0, 0, 1⟩]⟩
     [(0xFF0000FF : Nat)] Side.Front View.Face (Or.inl rfl) rfl rfl⟩

end Isomagic
